import Mathlib

/-!
Shallow embedding of the imageManip BMP codec (src/lib.rs) and verification of
the specification's claims about it.  Bytes are natural numbers below 256,
`u32`/`u16` fields are naturals, `i32` fields are integers, Rust `Vec` is
`List`, and every operation that can panic in Rust (slice or index out of
range, integer underflow on `usize` subtraction) returns `Option`, with `none`
modelling the panic.
-/

/-- Little-endian byte `i` of a natural number, as produced by `to_le_bytes`. -/
def byteAt (n i : Nat) : Nat := n / 256 ^ i % 256

/-- Reads a little-endian u16 from two bytes (`LittleEndian::read_u16`). -/
def leU16 (b0 b1 : Nat) : Nat := b0 + 256 * b1

/-- Reads a little-endian u32 from four bytes (`LittleEndian::read_u32`). -/
def leU32 (b0 b1 b2 b3 : Nat) : Nat := b0 + 256 * b1 + 65536 * b2 + 16777216 * b3

/-- Reads a little-endian i32, two's complement (`LittleEndian::read_i32`). -/
def leI32 (b0 b1 b2 b3 : Nat) : Int :=
  let n := leU32 b0 b1 b2 b3
  if n < 2147483648 then (n : Int) else (n : Int) - 4294967296

/-- Models the Rust cast `i32 as usize` (64-bit sign extension). -/
def i32AsUsize (z : Int) : Nat := (z % 18446744073709551616).toNat

/-- Byte `i` of an i32 value as laid out by `to_le_bytes` (two's complement). -/
def i32byteAt (z : Int) (i : Nat) : Nat := byteAt ((z % 4294967296).toNat) i

/-- Models the Rust struct `Header` of src/lib.rs: the fixed 46-byte region of
a BMP file plus the trailing `gap` bytes. -/
structure Header where
  bmp_ident : Nat × Nat
  file_size : Nat
  reserved1 : Nat × Nat
  reserved2 : Nat × Nat
  offset : Nat
  header_size : Nat
  width : Nat
  height : Nat
  color_planes : Nat
  bits_per_pixel : Nat
  compression : Nat
  pixel_image_size : Nat
  hres : Int
  vres : Int
  gap : List Nat
  deriving DecidableEq

/-- Models `impl From<Vec<u8>> for Header`: fixed little-endian fields at fixed
offsets, `gap` being everything from byte 46 on.  The Rust code panics when
fewer than 46 bytes are given; that is modelled as `none`. -/
def Header.fromBytes (b : List Nat) : Option Header :=
  if b.length < 46 then none else some {
    bmp_ident := (b.getD 0 0, b.getD 1 0)
    file_size := leU32 (b.getD 2 0) (b.getD 3 0) (b.getD 4 0) (b.getD 5 0)
    reserved1 := (b.getD 6 0, b.getD 7 0)
    reserved2 := (b.getD 8 0, b.getD 9 0)
    offset := leU32 (b.getD 10 0) (b.getD 11 0) (b.getD 12 0) (b.getD 13 0)
    header_size := leU32 (b.getD 14 0) (b.getD 15 0) (b.getD 16 0) (b.getD 17 0)
    width := i32AsUsize (leI32 (b.getD 18 0) (b.getD 19 0) (b.getD 20 0) (b.getD 21 0))
    height := i32AsUsize (leI32 (b.getD 22 0) (b.getD 23 0) (b.getD 24 0) (b.getD 25 0))
    color_planes := leU16 (b.getD 26 0) (b.getD 27 0)
    bits_per_pixel := leU16 (b.getD 28 0) (b.getD 29 0)
    compression := leU32 (b.getD 30 0) (b.getD 31 0) (b.getD 32 0) (b.getD 33 0)
    pixel_image_size := leU32 (b.getD 34 0) (b.getD 35 0) (b.getD 36 0) (b.getD 37 0)
    hres := leI32 (b.getD 38 0) (b.getD 39 0) (b.getD 40 0) (b.getD 41 0)
    vres := leI32 (b.getD 42 0) (b.getD 43 0) (b.getD 44 0) (b.getD 45 0)
    gap := b.drop 46 }

/-- Models `impl From<Header> for Vec<u8>`, reproducing the source's literal
byte assignments: output byte 33 is written from compression byte 2 (not 3),
bytes 36 and 37 from pixel_image_size byte 1, byte 41 from hres byte 2 and
byte 45 from vres byte 2, exactly as the Rust code assigns them. -/
def Header.toBytes (h : Header) : List Nat :=
  [h.bmp_ident.1, h.bmp_ident.2,
   byteAt h.file_size 0, byteAt h.file_size 1, byteAt h.file_size 2, byteAt h.file_size 3,
   h.reserved1.1, h.reserved1.2, h.reserved2.1, h.reserved2.2,
   byteAt h.offset 0, byteAt h.offset 1, byteAt h.offset 2, byteAt h.offset 3,
   byteAt h.header_size 0, byteAt h.header_size 1, byteAt h.header_size 2, byteAt h.header_size 3,
   byteAt (h.width % 4294967296) 0, byteAt (h.width % 4294967296) 1,
   byteAt (h.width % 4294967296) 2, byteAt (h.width % 4294967296) 3,
   byteAt (h.height % 4294967296) 0, byteAt (h.height % 4294967296) 1,
   byteAt (h.height % 4294967296) 2, byteAt (h.height % 4294967296) 3,
   byteAt h.color_planes 0, byteAt h.color_planes 1,
   byteAt h.bits_per_pixel 0, byteAt h.bits_per_pixel 1,
   byteAt h.compression 0, byteAt h.compression 1, byteAt h.compression 2,
   byteAt h.compression 2,
   byteAt h.pixel_image_size 0, byteAt h.pixel_image_size 1,
   byteAt h.pixel_image_size 1, byteAt h.pixel_image_size 1,
   i32byteAt h.hres 0, i32byteAt h.hres 1, i32byteAt h.hres 2, i32byteAt h.hres 2,
   i32byteAt h.vres 0, i32byteAt h.vres 1, i32byteAt h.vres 2, i32byteAt h.vres 2]
  ++ h.gap

/-- Models the Rust enum `Pixel`. -/
inductive Pixel where
  | ColorData (b g r : Nat)
  | Padding
  deriving DecidableEq

/-- Models the Rust tuple struct `Color(u8, u8, u8)` (blue, green, red). -/
structure Color where
  b : Nat
  g : Nat
  r : Nat
  deriving DecidableEq

/-- Models `impl From<Color> for Pixel` (and the `&Color` variant). -/
def Pixel.fromColor (c : Color) : Pixel := Pixel.ColorData c.b c.g c.r

/-- Models `impl From<&Pixel> for Color`: `Padding` maps to `Color(0,0,0)`. -/
def Color.fromPixel : Pixel → Color
  | Pixel.ColorData b g r => ⟨b, g, r⟩
  | Pixel.Padding => ⟨0, 0, 0⟩

/-- Models `num::clamp(v, 0.0, 255.0)` followed by the cast to u8.  The clamped
value is nonnegative, so the truncating cast is the floor. -/
def clampByte (q : ℚ) : Nat := (min (max q 0) 255).floor.toNat

/-- Models `impl Mul<f64> for Color`, the f64 arithmetic of the source taken
over the rationals. -/
def Color.mulFactor (c : Color) (f : ℚ) : Color :=
  ⟨clampByte ((c.b : ℚ) * f), clampByte ((c.g : ℚ) * f), clampByte ((c.r : ℚ) * f)⟩

/-- Bytes emitted for one cell by `pixel2d_to_bytes`: three bytes for color
data, a single zero byte for padding. -/
def Pixel.bytes : Pixel → List Nat
  | Pixel.ColorData b g r => [b, g, r]
  | Pixel.Padding => [0]

/-- One output row of `pixel2d_to_bytes`: cell `y` of every column, in column
order.  The Rust indexing `column[y]` panics when out of range: `none`. -/
def rowBytes (pixels : List (List Pixel)) (y : Nat) : Option (List Nat) :=
  (pixels.mapM (fun (c : List Pixel) => c.get? y)).map
    (fun ps => (ps.map Pixel.bytes).flatten)

/-- Models `Pixel::pixel2d_to_bytes`.  The row count is the length of column 0
(`pixels[0]` panics on an empty grid: `none`). -/
def Pixel.pixel2d_to_bytes (pixels : List (List Pixel)) : Option (List Nat) := do
  let c0 ← pixels.get? 0
  ((List.range c0.length).mapM (rowBytes pixels)).map List.flatten

/-- Models the Rust struct `BmpFile`. -/
structure BmpFile where
  header : Header
  pixels : List (List Pixel)
  deriving DecidableEq

/-- Row padding as computed in `TryFrom<File> for BmpFile`: zero, unless
width*3 is not a multiple of 4, in which case 4 - width*3 % 4. -/
def rowPadding (w : Nat) : Nat := if w * 3 % 4 ≠ 0 then 4 - w * 3 % 4 else 0

/-- Inner pixel loop of the decoder: for every column of the grid, in order
(`for column in &mut pixels`), one ColorData triple is read at cursor positions
i-2, i-1, i and the cursor advances by 3.  An out-of-range read models the Rust
index panic as `none`. -/
def readTriples (pa : List Nat) : List (List Pixel) → Nat → Option (List (List Pixel) × Nat)
  | [], i => some ([], i)
  | c :: cs, i => do
    let b ← pa.get? (i - 2)
    let g ← pa.get? (i - 1)
    let r ← pa.get? i
    let (cs', i') ← readTriples pa cs (i + 3)
    some ((c ++ [Pixel.ColorData b g r]) :: cs', i')

/-- One scanline of the decoder: a ColorData triple for every column (regular
and padding columns alike, as the source's first inner loop does), then one
Padding entry appended to each trailing padding column, the cursor advancing by
1 for each of those. -/
def scanlineStep (pa : List Nat) (w : Nat) (st : List (List Pixel) × Nat) :
    Option (List (List Pixel) × Nat) := do
  let (cols, i) ← readTriples pa st.1 st.2
  some (cols.take w ++ (cols.drop w).map (fun c => c ++ [Pixel.Padding]),
    i + (cols.drop w).length)

/-- Models `impl TryFrom<File> for BmpFile` on the byte content of the file.
The source slices `bytes[0..138]` for the header, `bytes[offset..]` for the
pixel array, starts the cursor at 2 and runs one scanline per height unit; it
never returns `Err`, and all of its panics (short input, short pixel array) are
modelled as `none`. -/
def BmpFile.decode (bytes : List Nat) : Option BmpFile := do
  if bytes.length < 138 then none else
  let header ← Header.fromBytes (bytes.take 138)
  if bytes.length < header.offset then none else
  let pa := bytes.drop header.offset
  let padding := rowPadding header.width
  let start := (List.replicate (header.width + padding) ([] : List Pixel), 2)
  let res ← (List.range header.height).foldlM
    (fun st _ => scanlineStep pa header.width st) start
  some ⟨header, res.1⟩

/-- Models `impl From<BmpFile> for Vec<u8>`: header bytes followed by the pixel
bytes. -/
def BmpFile.encode (f : BmpFile) : Option (List Nat) :=
  (Pixel.pixel2d_to_bytes f.pixels).map (fun p => Header.toBytes f.header ++ p)

/-- Reads cell (x, y) of the grid: column x, row y. -/
def getPix (cols : List (List Pixel)) (x y : Nat) : Option Pixel :=
  (cols.get? x).bind (fun c => c.get? y)

/-- Writes cell (x, y) of the grid.  Models `pixels[x][y] = v`; the Rust index
panic on either coordinate is `none`. -/
def setPix (cols : List (List Pixel)) (x y : Nat) (v : Pixel) :
    Option (List (List Pixel)) := do
  let col ← cols.get? x
  if y < col.length then some (cols.set x (col.set y v)) else none

/-- Models `BmpFile::change_pixel`: an unchecked write to `pixels[x][y]`. -/
def BmpFile.change_pixel (img : BmpFile) (x y : Nat) (c : Color) : Option BmpFile :=
  (setPix img.pixels x y (Pixel.fromColor c)).map (fun px => { img with pixels := px })

/-- Models `BmpFile::draw_vline`: columns `pos - thickness/2` up to (exclusive)
`pos + thickness/2`, rows `0..height`.  The usize subtraction
`pos - thickness/2` panics on underflow: `none`. -/
def BmpFile.draw_vline (img : BmpFile) (pos thickness : Nat) (c : Color) : Option BmpFile :=
  if pos < thickness / 2 then none else
  ((List.range' (pos - thickness / 2) (pos + thickness / 2 - (pos - thickness / 2))).foldlM
    (fun cols column =>
      (List.range img.header.height).foldlM
        (fun cols2 row => setPix cols2 column row (Pixel.fromColor c)) cols)
    img.pixels).map (fun px => { img with pixels := px })

/-- Models `BmpFile::draw_hline`: rows `pos - thickness/2` up to (exclusive)
`pos + thickness/2`, columns `0..width`. -/
def BmpFile.draw_hline (img : BmpFile) (pos thickness : Nat) (c : Color) : Option BmpFile :=
  if pos < thickness / 2 then none else
  ((List.range' (pos - thickness / 2) (pos + thickness / 2 - (pos - thickness / 2))).foldlM
    (fun cols row =>
      (List.range img.header.width).foldlM
        (fun cols2 column => setPix cols2 column row (Pixel.fromColor c)) cols)
    img.pixels).map (fun px => { img with pixels := px })

/-- Models `BmpFile::mirror_horizontal_left`: for every row y and every
i < width/2, copies cell (i, y) onto cell (width - i - 1, y). -/
def BmpFile.mirror_horizontal_left (img : BmpFile) : Option BmpFile :=
  ((List.range img.header.height).foldlM
    (fun cols y =>
      (List.range (img.header.width / 2)).foldlM
        (fun cols2 i => do
          let v ← getPix cols2 i y
          setPix cols2 (img.header.width - i - 1) y v) cols)
    img.pixels).map (fun px => { img with pixels := px })

/-- Models `BmpFile::vertical_fade_left`.  The f64 factor `x / (width - 1)` is
taken over the rationals; division by zero yields zero, which coincides with
the source's NaN-to-zero saturating u8 cast for width 1. -/
def BmpFile.vertical_fade_left (img : BmpFile) : Option BmpFile :=
  ((List.range img.header.height).foldlM
    (fun cols y =>
      (List.range img.header.width).foldlM
        (fun cols2 x => do
          let v ← getPix cols2 x y
          let factor : ℚ := (x : ℚ) / ((img.header.width - 1 : Nat) : ℚ)
          setPix cols2 x y (Pixel.fromColor ((Color.fromPixel v).mulFactor factor)))
        cols)
    img.pixels).map (fun px => { img with pixels := px })

/-- Models `BmpFile::make_red`: writes `Color(0,0,255)` to every (x, y) with
x < width, y < height. -/
def BmpFile.make_red (img : BmpFile) : Option BmpFile :=
  ((List.range img.header.height).foldlM
    (fun cols y =>
      (List.range img.header.width).foldlM
        (fun cols2 x => setPix cols2 x y (Pixel.fromColor ⟨0, 0, 255⟩)) cols)
    img.pixels).map (fun px => { img with pixels := px })

/-- Models `BmpFile::make_blue`, the uniform fill of the source: writes
`Color(255,0,0)` to every (x, y) with x < width, y < height. -/
def BmpFile.make_blue (img : BmpFile) : Option BmpFile :=
  ((List.range img.header.height).foldlM
    (fun cols y =>
      (List.range img.header.width).foldlM
        (fun cols2 x => setPix cols2 x y (Pixel.fromColor ⟨255, 0, 0⟩)) cols)
    img.pixels).map (fun px => { img with pixels := px })

/-- Four little-endian bytes of a u32 value, for building concrete inputs. -/
def u32L (n : Nat) : List Nat := [byteAt n 0, byteAt n 1, byteAt n 2, byteAt n 3]

/-- Two little-endian bytes of a u16 value, for building concrete inputs. -/
def u16L (n : Nat) : List Nat := [byteAt n 0, byteAt n 1]

/-- Header region (138 bytes) of a 24-bit uncompressed BMP: signature BM,
pixel data offset 138, DIB header size 124, one color plane, declared pixel
image size `pis`, 2835 pixels per meter both ways, and a zero-filled gap. -/
def mkHeaderBytes (w h pis : Nat) : List Nat :=
  [66, 77] ++ u32L (138 + h * (3 * w + rowPadding w)) ++ [0, 0] ++ [0, 0] ++
  u32L 138 ++ u32L 124 ++ u32L w ++ u32L h ++ u16L 1 ++ u16L 24 ++ u32L 0 ++
  u32L pis ++ u32L 2835 ++ u32L 2835 ++ List.replicate 92 0

/-- Header region of a 256x256 24-bit uncompressed BMP whose declared pixel
image size 196608 = 256*256*3 has a nonzero third byte. -/
def c1bytes : List Nat := mkHeaderBytes 256 256 196608

/-- Complete file for a 1x1 image (row padding 1) with exactly the
height*(3*width+row_padding) = 4 pixel bytes the layout requires. -/
def c2bytes : List Nat := mkHeaderBytes 1 1 4 ++ [10, 20, 30, 40]

/-- Complete file for a 1x1 image (row padding 1) with six pixel bytes, enough
for the decoder's actual consumption. -/
def c3bytes : List Nat := mkHeaderBytes 1 1 4 ++ [10, 20, 30, 40, 50, 60]

/-- Header decoded from `mkHeaderBytes 1 1 4`. -/
def hdrOne : Header where
  bmp_ident := (66, 77)
  file_size := 142
  reserved1 := (0, 0)
  reserved2 := (0, 0)
  offset := 138
  header_size := 124
  width := 1
  height := 1
  color_planes := 1
  bits_per_pixel := 24
  compression := 0
  pixel_image_size := 4
  hres := 2835
  vres := 2835
  gap := List.replicate 92 0

/-- A 1x1 image with its single regular column and one padding column. -/
def imgOneByOne : BmpFile := ⟨hdrOne, [[Pixel.ColorData 1 2 3], [Pixel.Padding]]⟩

/-- Header of a 2x1 image. -/
def hdrTwo : Header := { hdrOne with width := 2, file_size := 144, pixel_image_size := 6 }

/-- A 2x1 image with two distinct pixels and no padding columns in the grid;
the editing operations exercised on it only address columns below the width. -/
def imgTwo : BmpFile := ⟨hdrTwo, [[Pixel.ColorData 1 2 3], [Pixel.ColorData 4 5 6]]⟩

/-- Header of a 10x10 image. -/
def hdrTen : Header :=
  { hdrOne with width := 10, height := 10, file_size := 458, pixel_image_size := 320 }

/-- A 10x10 all-black image with its two padding columns. -/
def imgTen : BmpFile :=
  ⟨hdrTen, List.replicate 10 (List.replicate 10 (Pixel.ColorData 0 0 0)) ++
    List.replicate 2 (List.replicate 10 Pixel.Padding)⟩

/-- A 200-byte input whose header declares pixel data offset 46 and width and
height 0, every byte from offset 46 on being 7. -/
def c6bytes : List Nat :=
  [66, 77] ++ u32L 200 ++ [0, 0] ++ [0, 0] ++ u32L 46 ++ u32L 124 ++ u32L 0 ++
  u32L 0 ++ u16L 1 ++ u16L 24 ++ u32L 0 ++ u32L 0 ++ u32L 2835 ++ u32L 2835 ++
  List.replicate 154 7

/-- Header decoded from `c6bytes`: the gap is bytes 46..138 of the input even
though the declared pixel data offset is 46. -/
def c6hdr : Header where
  bmp_ident := (66, 77)
  file_size := 200
  reserved1 := (0, 0)
  reserved2 := (0, 0)
  offset := 46
  header_size := 124
  width := 0
  height := 0
  color_planes := 1
  bits_per_pixel := 24
  compression := 0
  pixel_image_size := 0
  hres := 2835
  vres := 2835
  gap := List.replicate 92 7

/-- Image decoded from `c6bytes`: zero columns. -/
def c6img : BmpFile := ⟨c6hdr, []⟩

/-- Result of `imgOneByOne.change_pixel 0 0 ⟨5, 5, 5⟩`. -/
def c4res : BmpFile := ⟨hdrOne, [[Pixel.ColorData 5 5 5], [Pixel.Padding]]⟩

/-- Result of `imgOneByOne.change_pixel 1 0 ⟨7, 8, 9⟩`: the write lands in the
padding column. -/
def c9res : BmpFile := ⟨hdrOne, [[Pixel.ColorData 1 2 3], [Pixel.ColorData 7 8 9]]⟩


theorem setPix_eq_some {cols : List (List Pixel)} {x y : Nat} {v : Pixel}
    {col : List Pixel} (hx : cols.get? x = some col) (hy : y < col.length) :
    setPix cols x y v = some (cols.set x (col.set y v)) := by
  unfold setPix
  rw [hx]
  simp [hy]

theorem setPix_isSome_iff {cols : List (List Pixel)} {x y : Nat} {v : Pixel} :
    (setPix cols x y v).isSome ↔
      x < cols.length ∧ y < (cols.getD x []).length := by
  cases hx : cols.get? x with
  | none =>
    have hlen : cols.length ≤ x := by
      simpa using List.get?_eq_none.mp hx
    unfold setPix
    rw [hx]
    simp [List.getD_eq_getElem?_getD, hx]
    omega
  | some col =>
    have hlen : x < cols.length := by
      by_contra hc
      rw [List.get?_eq_none.mpr (by omega)] at hx
      exact Option.noConfusion hx
    have hx2 : cols[x]? = some col := by rw [← List.get?_eq_getElem?]; exact hx
    have hcol : cols[x] = col := by
      rw [List.getElem?_eq_getElem hlen] at hx2
      exact Option.some_inj.mp hx2
    unfold setPix
    rw [hx]
    by_cases hy : y < col.length
    · simp [hy, hlen, List.getD_eq_getElem?_getD, hx2, hcol]
    · simp [hy, hlen, List.getD_eq_getElem?_getD, hx2, hcol]

/-- C10: converting a Color to a Pixel yields ColorData with the same three
channels, converting that pixel back yields the same Color unchanged, and
converting a Padding pixel yields Color(0,0,0). -/
theorem spec_c10 (b g r : Nat) :
    Pixel.fromColor ⟨b, g, r⟩ = Pixel.ColorData b g r ∧
    Color.fromPixel (Pixel.ColorData b g r) = ⟨b, g, r⟩ ∧
    Color.fromPixel Pixel.Padding = ⟨0, 0, 0⟩ :=
  ⟨rfl, rfl, rfl⟩

set_option maxRecDepth 100000 in
/-- C1: encoding a header immediately after decoding it does NOT reproduce the
original bytes.  On the header region of a 256x256 24-bit uncompressed BMP
with declared pixel image size 196608, the encoder writes output bytes 36 and
37 from byte 1 of pixel_image_size instead of bytes 2 and 3, so the round trip
changes byte 36 from 3 to 0. -/
theorem spec_c1 : (Header.fromBytes c1bytes).map Header.toBytes ≠ some c1bytes := by
  decide

theorem setPix_eq_some_inv {cols px : List (List Pixel)} {x y : Nat} {v : Pixel}
    (h : setPix cols x y v = some px) :
    ∃ col, cols.get? x = some col ∧ y < col.length ∧ px = cols.set x (col.set y v) := by
  cases hx : cols.get? x with
  | none =>
    unfold setPix at h
    rw [hx] at h
    exact Option.noConfusion h
  | some col =>
    unfold setPix at h
    rw [hx] at h
    have h2 : (if y < col.length then some (cols.set x (col.set y v)) else none) = some px := h
    by_cases hy : y < col.length
    · rw [if_pos hy] at h2
      exact ⟨col, rfl, hy, (Option.some_inj.mp h2).symm⟩
    · rw [if_neg hy] at h2
      exact Option.noConfusion h2

set_option maxRecDepth 100000 in
/-- C2: on a 1x1 file carrying exactly the height*(3*width+row_padding) = 4
pixel bytes the claim says are consumed, decoding fails (index panic, modelled
as none): the decoder reads a 3-byte triple for the padding column as well,
consuming 3*(width+padding)+padding = 7 bytes per scanline. -/
theorem spec_c2 : BmpFile.decode c2bytes = none := by decide

set_option maxRecDepth 100000 in
/-- C3: decoding a 1x1 file with six pixel bytes succeeds, and the single
padding column holds a ColorData entry followed by a Padding entry - two
entries, one carrying color information - not height = 1 Padding entries. -/
theorem spec_c3 :
    BmpFile.decode c3bytes =
      some ⟨hdrOne, [[Pixel.ColorData 10 20 30],
        [Pixel.ColorData 40 50 60, Pixel.Padding]]⟩ ∧
    [Pixel.ColorData 40 50 60, Pixel.Padding] ≠ List.replicate 1 Pixel.Padding := by
  exact ⟨by decide, by decide⟩

set_option maxRecDepth 100000 in
/-- C4 counterexample: change_pixel with x = width succeeds on an image with a
padding column, writing color data into the padding column, instead of failing
with OutOfBounds. -/
theorem spec_c4_cex :
    imgOneByOne.change_pixel 1 0 ⟨9, 9, 9⟩ =
      some ⟨hdrOne, [[Pixel.ColorData 1 2 3], [Pixel.ColorData 9 9 9]]⟩ := by
  decide

/-- C4 (amended): change_pixel performs no width or height bounds check and
returns no typed error: it succeeds exactly when x indexes an existing column
of the grid - including the synthetic padding columns - and y an existing cell
of that column, failing by index panic (modelled as none) otherwise; it never
changes the header, and a write to column x leaves every other column - in
particular, for x < width, every padding column - unchanged. -/
theorem spec_c4 (img : BmpFile) (x y : Nat) (c : Color) :
    ((img.change_pixel x y c).isSome ↔
      x < img.pixels.length ∧ y < (img.pixels.getD x []).length) ∧
    (∀ img', img.change_pixel x y c = some img' →
      img'.header = img.header ∧
      ∀ j, j ≠ x → img'.pixels.get? j = img.pixels.get? j) := by
  constructor
  · rw [← setPix_isSome_iff (v := Pixel.fromColor c)]
    simp [BmpFile.change_pixel]
  · intro img' h
    simp only [BmpFile.change_pixel, Option.map_eq_some'] at h
    obtain ⟨px, hpx, himg⟩ := h
    subst himg
    obtain ⟨col, hcol, hy, hpxeq⟩ := setPix_eq_some_inv hpx
    subst hpxeq
    refine ⟨rfl, fun j hj => ?_⟩
    simp only [List.get?_eq_getElem?]
    exact List.getElem?_set_ne (fun he => hj he.symm)

set_option maxRecDepth 100000 in
/-- C4 witness: a concrete in-bounds write whose result keeps the header and
the padding column. -/
theorem spec_c4_witness :
    c4res.header = imgOneByOne.header ∧
    c4res.pixels.get? 1 = imgOneByOne.pixels.get? 1 :=
  ⟨((spec_c4 imgOneByOne 0 0 ⟨5, 5, 5⟩).2 c4res (by decide)).1,
   ((spec_c4 imgOneByOne 0 0 ⟨5, 5, 5⟩).2 c4res (by decide)).2 1 (by decide)⟩

theorem gap_of_fromBytes {bb : List Nat} {hdr : Header}
    (h : Header.fromBytes bb = some hdr) : hdr.gap = bb.drop 46 := by
  unfold Header.fromBytes at h
  split at h
  · exact Option.noConfusion h
  · have h2 := Option.some_inj.mp h
    rw [← h2]

theorem decode_inv {b : List Nat} {img : BmpFile} (h : BmpFile.decode b = some img) :
    138 ≤ b.length ∧ Header.fromBytes (b.take 138) = some img.header ∧
    img.header.offset ≤ b.length ∧
    ∃ res, List.foldlM (fun st _ => scanlineStep (b.drop img.header.offset) img.header.width st)
      (List.replicate (img.header.width + rowPadding img.header.width) [], 2)
      (List.range img.header.height) = some res ∧ img.pixels = res.1 := by
  by_cases h138 : b.length < 138
  · unfold BmpFile.decode at h
    rw [if_pos h138] at h
    exact Option.noConfusion h
  · unfold BmpFile.decode at h
    rw [if_neg h138] at h
    rw [Option.bind_eq_bind', Option.bind_eq_some] at h
    obtain ⟨hdr, hfb, h⟩ := h
    by_cases hoff : b.length < hdr.offset
    · rw [if_pos hoff] at h
      exact Option.noConfusion h
    · rw [if_neg hoff] at h
      rw [Option.bind_eq_bind', Option.bind_eq_some] at h
      obtain ⟨res, hres, h⟩ := h
      have himg := Option.some_inj.mp h
      subst himg
      have hoff2 : hdr.offset ≤ b.length := by omega
      exact ⟨by omega, hfb, hoff2, res, hres, rfl⟩

/-- C6 (amended): the decoder never reports a typed error; it fails (by panic,
modelled as none) whenever the input has fewer than 138 bytes - even when the
46-byte fixed header region is present - and on success the gap is always
bytes 46 to 138 of the input, regardless of the declared pixel data offset. -/
theorem spec_c6 (b : List Nat) :
    (b.length < 138 → BmpFile.decode b = none) ∧
    (∀ img, BmpFile.decode b = some img → img.header.gap = (b.take 138).drop 46) := by
  constructor
  · intro h
    unfold BmpFile.decode
    rw [if_pos h]
  · intro img h
    exact gap_of_fromBytes (decode_inv h).2.1

set_option maxRecDepth 100000 in
/-- C6 counterexample: on a 200-byte input with declared pixel data offset 46,
decoding succeeds and the gap is not the empty byte range from offset 46 to
offset 46 the claim requires, but bytes 46..138 of the input. -/
theorem spec_c6_cex :
    BmpFile.decode c6bytes = some c6img ∧ c6img.header.offset = 46 ∧
    c6img.header.gap ≠ [] :=
  ⟨by decide, by decide, by decide⟩

set_option maxRecDepth 100000 in
/-- C6 witness: a 10-byte input fails, and the gap of the decoded 200-byte
input is bytes 46..138 of it. -/
theorem spec_c6_witness :
    BmpFile.decode (List.replicate 10 0) = none ∧
    c6img.header.gap = (c6bytes.take 138).drop 46 :=
  ⟨(spec_c6 (List.replicate 10 0)).1 (by decide),
   (spec_c6 c6bytes).2 c6img (by decide)⟩

theorem header_of_pixelsMap {img img' : BmpFile} {o : Option (List (List Pixel))}
    (h : o.map (fun px => { img with pixels := px }) = some img') :
    img'.header = img.header := by
  cases o with
  | none => exact Option.noConfusion h
  | some px =>
    have h2 : some { img with pixels := px } = some img' := h
    rw [← Option.some_inj.mp h2]

/-- C9: none of the editing operations - change_pixel, draw_vline, draw_hline,
mirror_horizontal_left, vertical_fade_left, make_red, make_blue - changes any
header field: whenever one of them succeeds, the header of the result equals
the header of the input image. -/
theorem spec_c9 (img : BmpFile) :
    (∀ x y c img', img.change_pixel x y c = some img' → img'.header = img.header) ∧
    (∀ pos t c img', img.draw_vline pos t c = some img' → img'.header = img.header) ∧
    (∀ pos t c img', img.draw_hline pos t c = some img' → img'.header = img.header) ∧
    (∀ img', img.mirror_horizontal_left = some img' → img'.header = img.header) ∧
    (∀ img', img.vertical_fade_left = some img' → img'.header = img.header) ∧
    (∀ img', img.make_red = some img' → img'.header = img.header) ∧
    (∀ img', img.make_blue = some img' → img'.header = img.header) := by
  refine ⟨fun x y c img' h => header_of_pixelsMap h,
    fun pos t c img' h => ?_, fun pos t c img' h => ?_,
    fun img' h => header_of_pixelsMap h, fun img' h => header_of_pixelsMap h,
    fun img' h => header_of_pixelsMap h, fun img' h => header_of_pixelsMap h⟩
  · unfold BmpFile.draw_vline at h
    split at h
    · exact Option.noConfusion h
    · exact header_of_pixelsMap h
  · unfold BmpFile.draw_hline at h
    split at h
    · exact Option.noConfusion h
    · exact header_of_pixelsMap h

set_option maxRecDepth 100000 in
/-- C9 witness: a concrete successful change_pixel keeps the header. -/
theorem spec_c9_witness : c9res.header = imgOneByOne.header :=
  (spec_c9 imgOneByOne).1 1 0 ⟨7, 8, 9⟩ c9res (by decide)

theorem set_get?_self {α : Type} {l : List α} {n : Nat} {a : α}
    (h : l.get? n = some a) : l.set n a = l := by
  apply List.ext_get?
  intro j
  by_cases hj : j = n
  · subst hj
    have hlt : j < l.length := by
      by_contra hc
      rw [List.get?_eq_none.mpr (by omega)] at h
      exact Option.noConfusion h
    rw [List.get?_set_eq_of_lt a hlt, h]
  · exact List.get?_set_ne a l (fun he => hj he.symm)

theorem foldl_setAll {α : Type} (v : α) :
    ∀ (k : Nat) (c : List α), k ≤ c.length →
      (List.range k).foldl (fun c y => c.set y v) c = List.replicate k v ++ c.drop k := by
  intro k
  induction k with
  | zero => intro c _; simp
  | succ k ih =>
    intro c hk
    rw [List.range_succ, List.foldl_append, ih c (by omega)]
    have hlt : k < c.length := by omega
    have hlen : k < (List.replicate k v ++ c.drop k).length := by
      simp [List.length_drop]
      omega
    rw [List.foldl_cons, List.foldl_nil]
    rw [List.set_append]
    have : ¬ k < (List.replicate k v).length := by simp
    rw [if_neg this]
    rw [List.length_replicate, Nat.sub_self]
    rw [List.drop_eq_getElem_cons hlt, List.set_cons_zero]
    rw [List.replicate_succ' k v, List.append_assoc]
    simp

theorem foldl_copyAll {α : Type} (dflt : α) :
    ∀ (k : Nat) (c d : List α), k ≤ c.length → k ≤ d.length →
      (List.range k).foldl (fun c y => c.set y (d.getD y dflt)) c =
        d.take k ++ c.drop k := by
  intro k
  induction k with
  | zero => intro c d _ _; simp
  | succ k ih =>
    intro c d hk hd
    rw [List.range_succ, List.foldl_append, ih c d (by omega) (by omega)]
    have hltc : k < c.length := by omega
    have hltd : k < d.length := by omega
    rw [List.foldl_cons, List.foldl_nil]
    rw [List.set_append]
    have hnl : ¬ k < (d.take k).length := by
      simp [List.length_take]
    rw [if_neg hnl]
    have hlen : (d.take k).length = k := by
      simp [List.length_take]
      omega
    rw [hlen, Nat.sub_self]
    rw [List.drop_eq_getElem_cons hltc, List.set_cons_zero]
    have hget : d.getD k dflt = d[k] := by
      rw [List.getD_eq_getElem?_getD, List.getElem?_eq_getElem hltd]
      rfl
    rw [hget]
    rw [List.take_succ]
    have hsome : d[k]? = some d[k] := List.getElem?_eq_getElem hltd
    rw [hsome]
    simp only [Option.toList_some, List.append_assoc, List.singleton_append]

theorem lt_of_get?_eq_some {α : Type} {l : List α} {n : Nat} {a : α}
    (h : l.get? n = some a) : n < l.length := by
  by_contra hc
  rw [List.get?_eq_none.mpr (by omega)] at h
  exact Option.noConfusion h

theorem mem_of_get?_eq_some {α : Type} {l : List α} {n : Nat} {a : α}
    (h : l.get? n = some a) : a ∈ l :=
  List.mem_iff_get?.mpr ⟨n, h⟩

theorem replicate_drop_set {α : Type} (v : α) (k : Nat) (col : List α)
    (h : k < col.length) :
    (List.replicate k v ++ col.drop k).set k v =
      List.replicate (k + 1) v ++ col.drop (k + 1) := by
  rw [List.set_append]
  rw [if_neg (by simp)]
  rw [List.length_replicate, Nat.sub_self]
  rw [List.drop_eq_getElem_cons h, List.set_cons_zero]
  rw [List.replicate_succ' k v, List.append_assoc]
  simp

theorem foldlM_setRows {v : Pixel} {x : Nat} :
    ∀ (k : Nat) (cols : List (List Pixel)) (col : List Pixel),
      cols.get? x = some col → k ≤ col.length →
      (List.range k).foldlM (fun cs row => setPix cs x row v) cols
        = some (cols.set x (List.replicate k v ++ col.drop k)) := by
  intro k
  induction k with
  | zero =>
    intro cols col hx _
    rw [List.range_zero, List.foldlM_nil]
    simp [set_get?_self hx]
  | succ k ih =>
    intro cols col hx hk
    have hxlt : x < cols.length := lt_of_get?_eq_some hx
    have hklt : k < col.length := by omega
    rw [List.range_succ, List.foldlM_append, ih cols col hx (by omega)]
    have hMx : (cols.set x (List.replicate k v ++ col.drop k)).get? x
        = some (List.replicate k v ++ col.drop k) :=
      List.get?_set_eq_of_lt _ hxlt
    have hlen : k < (List.replicate k v ++ col.drop k).length := by
      simp [List.length_drop]
      omega
    have hstep := setPix_eq_some (v := v) hMx hlen
    show List.foldlM (fun cs row => setPix cs x row v)
      (cols.set x (List.replicate k v ++ col.drop k)) [k] = _
    rw [List.foldlM_cons, hstep]
    show List.foldlM (fun cs row => setPix cs x row v)
      ((cols.set x (List.replicate k v ++ col.drop k)).set x
        ((List.replicate k v ++ col.drop k).set k v)) [] = _
    rw [List.foldlM_nil, List.set_set, replicate_drop_set v k col hklt]
    rfl

theorem foldlM_paintCols {v : Pixel} {hh : Nat} :
    ∀ (is : List Nat) (cols : List (List Pixel)),
      (∀ i ∈ is, i < cols.length) → (∀ c ∈ cols, c.length = hh) →
      ∃ cols', is.foldlM (fun cs column => (List.range hh).foldlM
          (fun cs2 row => setPix cs2 column row v) cs) cols = some cols' ∧
        cols'.length = cols.length ∧ (∀ c ∈ cols', c.length = hh) ∧
        ∀ j, cols'.get? j = if j ∈ is then some (List.replicate hh v) else cols.get? j := by
  intro is
  induction is with
  | nil =>
    intro cols _ hlen
    exact ⟨cols, by rw [List.foldlM_nil]; rfl, rfl, hlen, fun j => by simp⟩
  | cons i is ih =>
    intro cols hmem hlen
    have hi : i < cols.length := hmem i (List.mem_cons_self i is)
    have hcol : cols.get? i = some (cols.get ⟨i, hi⟩) := List.get?_eq_get hi
    have hcollen : (cols.get ⟨i, hi⟩).length = hh :=
      hlen _ (mem_of_get?_eq_some hcol)
    have hinner := foldlM_setRows (v := v) hh cols (cols.get ⟨i, hi⟩) hcol
      (le_of_eq hcollen.symm)
    have hdrop : (cols.get ⟨i, hi⟩).drop hh = [] := by
      rw [← hcollen]
      exact List.drop_length _
    rw [hdrop, List.append_nil] at hinner
    have hMlen : ∀ c ∈ cols.set i (List.replicate hh v), c.length = hh := by
      intro c hc
      rcases List.mem_or_eq_of_mem_set hc with h | h
      · exact hlen c h
      · rw [h, List.length_replicate]
    have hMmem : ∀ i' ∈ is, i' < (cols.set i (List.replicate hh v)).length := by
      intro i' hi'
      rw [List.length_set]
      exact hmem i' (List.mem_cons_of_mem _ hi')
    obtain ⟨cols', hfold, hlen', hcl', hspec⟩ := ih _ hMmem hMlen
    refine ⟨cols', ?_, ?_, hcl', ?_⟩
    · simp only [List.foldlM_cons]
      rw [hinner]
      exact hfold
    · rw [hlen', List.length_set]
    · intro j
      rw [hspec j]
      by_cases hjis : j ∈ is
      · simp [hjis]
      · by_cases hji : j = i
        · subst hji
          simp only [hjis, if_false, List.mem_cons, or_false, if_pos rfl,
            eq_self_iff_true, true_or, if_true]
          exact List.get?_set_eq_of_lt _ hi
        · have : ¬ j ∈ i :: is := by
            simp [List.mem_cons, hji, hjis]
          rw [if_neg hjis, if_neg this]
          exact List.get?_set_ne _ _ (fun he => hji he.symm)

/-- C7 (amended): draw_vline paints every pixel in columns
x_center - thickness/2 up to (exclusive) x_center + thickness/2 across all
height rows and leaves every other cell unchanged, when that column range lies
inside the width; integer division truncates, and thickness 0 or 1 yield an
EMPTY column range - they paint nothing at all, not a single-column line. -/
theorem spec_c7 (img : BmpFile) (pos t : Nat) (c : Color)
    (hcl : ∀ col ∈ img.pixels, col.length = img.header.height)
    (h1 : t / 2 ≤ pos) (h2 : pos + t / 2 ≤ img.header.width)
    (h3 : img.header.width ≤ img.pixels.length) :
    (img.draw_vline pos t c).isSome ∧
    (∀ img', img.draw_vline pos t c = some img' →
      ∀ x y, getPix img'.pixels x y =
        if pos - t / 2 ≤ x ∧ x < pos + t / 2 ∧ y < img.header.height then
          some (Pixel.fromColor c)
        else getPix img.pixels x y) ∧
    (t ≤ 1 → img.draw_vline pos t c = some img) := by
  have hif : ¬ pos < t / 2 := by omega
  have hmem : ∀ i ∈ List.range' (pos - t / 2) (pos + t / 2 - (pos - t / 2)),
      i < img.pixels.length := by
    intro i hi
    rw [List.mem_range'_1] at hi
    omega
  obtain ⟨cols', hfold, hlen', hcl', hspec⟩ :=
    foldlM_paintCols (v := Pixel.fromColor c)
      (List.range' (pos - t / 2) (pos + t / 2 - (pos - t / 2))) img.pixels hmem hcl
  unfold BmpFile.draw_vline
  rw [if_neg hif, hfold]
  refine ⟨by simp, ?_, ?_⟩
  · intro img' h
    have himg := Option.some_inj.mp h
    rw [← himg]
    intro x y
    show (cols'.get? x).bind (fun col => col.get? y) = _
    rw [hspec x]
    by_cases hx : x ∈ List.range' (pos - t / 2) (pos + t / 2 - (pos - t / 2))
    · rw [if_pos hx]
      rw [List.mem_range'_1] at hx
      have hxr : pos - t / 2 ≤ x ∧ x < pos + t / 2 := by omega
      by_cases hy : y < img.header.height
      · rw [if_pos ⟨hxr.1, hxr.2, hy⟩]
        show (List.replicate img.header.height (Pixel.fromColor c)).get? y = _
        rw [List.get?_eq_getElem?, List.getElem?_replicate, if_pos hy]
      · have hcond : ¬ (pos - t / 2 ≤ x ∧ x < pos + t / 2 ∧ y < img.header.height) := by
          intro hc
          exact hy hc.2.2
        rw [if_neg hcond]
        have hxlt : x < img.pixels.length := by omega
        have hcolx : img.pixels.get? x = some (img.pixels.get ⟨x, hxlt⟩) :=
          List.get?_eq_get hxlt
        have hclx : (img.pixels.get ⟨x, hxlt⟩).length = img.header.height :=
          hcl _ (mem_of_get?_eq_some hcolx)
        show (List.replicate img.header.height (Pixel.fromColor c)).get? y = _
        rw [List.get?_eq_getElem?, List.getElem?_replicate, if_neg hy]
        unfold getPix
        rw [hcolx]
        show _ = (img.pixels.get ⟨x, hxlt⟩).get? y
        rw [List.get?_eq_none.mpr (by omega)]
    · rw [if_neg hx]
      have hcond : ¬ (pos - t / 2 ≤ x ∧ x < pos + t / 2 ∧ y < img.header.height) := by
        intro hc
        apply hx
        rw [List.mem_range'_1]
        omega
      rw [if_neg hcond]
      rfl
  · intro ht
    have ht2 : t / 2 = 0 := by omega
    have hempty : List.range' (pos - t / 2) (pos + t / 2 - (pos - t / 2)) = [] := by
      rw [ht2]
      have hn : pos + 0 - (pos - 0) = 0 := by omega
      rw [hn]
      rfl
    have hcols : cols' = img.pixels := by
      apply List.ext_get?
      intro j
      rw [hspec j, hempty]
      simp
    rw [hcols]
    rfl

set_option maxRecDepth 100000 in
/-- C7 counterexample: thickness 1 paints nothing at all - the whole image is
returned unchanged and the pixel at the center column stays black, where the
claim promises a single-column white line at x_center = 5. -/
theorem spec_c7_cex :
    imgTen.draw_vline 5 1 ⟨255, 255, 255⟩ = some imgTen ∧
    getPix imgTen.pixels 5 3 ≠ some (Pixel.fromColor ⟨255, 255, 255⟩) :=
  ⟨by decide, by decide⟩

set_option maxRecDepth 100000 in
/-- C7 witness: the 10x10 instance of the claim, thickness 2 at x_center 5. -/
theorem spec_c7_witness : (imgTen.draw_vline 5 2 ⟨255, 255, 255⟩).isSome :=
  (spec_c7 imgTen 5 2 ⟨255, 255, 255⟩ (by decide) (by decide) (by decide)
    (by decide)).1

theorem foldlM_mirrorRow {w y : Nat} :
    ∀ (k : Nat) (cols : List (List Pixel)), 2 * k ≤ w → w ≤ cols.length →
      (∀ c ∈ cols, y < c.length) →
      ∃ cols', (List.range k).foldlM (fun cs i => do
          let v ← getPix cs i y
          setPix cs (w - i - 1) y v) cols = some cols' ∧
        cols'.length = cols.length ∧
        (∀ j, (cols'.get? j).map List.length = (cols.get? j).map List.length) ∧
        ∀ j, cols'.get? j =
          if w - k ≤ j ∧ j < w then
            (getPix cols (w - 1 - j) y).bind
              (fun v => (cols.get? j).map (fun cj => cj.set y v))
          else cols.get? j := by
  intro k
  induction k with
  | zero =>
    intro cols _ _ _
    refine ⟨cols, by rw [List.range_zero, List.foldlM_nil]; rfl, rfl,
      fun j => rfl, fun j => ?_⟩
    have hc : ¬ (w - 0 ≤ j ∧ j < w) := by omega
    rw [if_neg hc]
  | succ k ih =>
    intro cols hk hw hy
    obtain ⟨cols', hfold, hlen', hmap', hspec⟩ := ih cols (by omega) hw hy
    have hkw : k < w := by omega
    have hklt : k < cols.length := by omega
    have hknot : ¬ (w - k ≤ k ∧ k < w) := by omega
    have hck : cols.get? k = some (cols.get ⟨k, hklt⟩) := List.get?_eq_get hklt
    have hyk : y < (cols.get ⟨k, hklt⟩).length := hy _ (mem_of_get?_eq_some hck)
    have hread : getPix cols' k y = some ((cols.get ⟨k, hklt⟩).get ⟨y, hyk⟩) := by
      unfold getPix
      rw [hspec k, if_neg hknot, hck]
      show (cols.get ⟨k, hklt⟩).get? y = _
      exact List.get?_eq_get hyk
    have hj0w : w - k - 1 < w := by omega
    have hj0lt : w - k - 1 < cols.length := by omega
    have hj0not : ¬ (w - k ≤ w - k - 1 ∧ w - k - 1 < w) := by omega
    have hcj0 : cols.get? (w - k - 1) = some (cols.get ⟨w - k - 1, hj0lt⟩) :=
      List.get?_eq_get hj0lt
    have hyj0 : y < (cols.get ⟨w - k - 1, hj0lt⟩).length :=
      hy _ (mem_of_get?_eq_some hcj0)
    have hcols'j0 : cols'.get? (w - k - 1) = some (cols.get ⟨w - k - 1, hj0lt⟩) := by
      rw [hspec _, if_neg hj0not]
      exact hcj0
    have hstep : setPix cols' (w - k - 1) y ((cols.get ⟨k, hklt⟩).get ⟨y, hyk⟩)
        = some (cols'.set (w - k - 1)
            ((cols.get ⟨w - k - 1, hj0lt⟩).set y ((cols.get ⟨k, hklt⟩).get ⟨y, hyk⟩))) :=
      setPix_eq_some hcols'j0 hyj0
    refine ⟨cols'.set (w - k - 1)
        ((cols.get ⟨w - k - 1, hj0lt⟩).set y ((cols.get ⟨k, hklt⟩).get ⟨y, hyk⟩)),
      ?_, ?_, ?_, ?_⟩
    · have happ : (do
          let v ← getPix cols' k y
          setPix cols' (w - k - 1) y v) = some (cols'.set (w - k - 1)
            ((cols.get ⟨w - k - 1, hj0lt⟩).set y
              ((cols.get ⟨k, hklt⟩).get ⟨y, hyk⟩))) := by
        rw [hread, Option.bind_eq_bind', Option.some_bind]
        exact hstep
      have hsingle : List.foldlM (fun cs i => do
          let v ← getPix cs i y
          setPix cs (w - i - 1) y v) cols' [k] = some (cols'.set (w - k - 1)
            ((cols.get ⟨w - k - 1, hj0lt⟩).set y
              ((cols.get ⟨k, hklt⟩).get ⟨y, hyk⟩))) := by
        rw [List.foldlM_cons, happ, Option.bind_eq_bind', Option.some_bind,
          List.foldlM_nil]
        rfl
      rw [List.range_succ, List.foldlM_append, hfold, Option.bind_eq_bind',
        Option.some_bind]
      exact hsingle
    · rw [List.length_set, hlen']
    · intro j
      by_cases hj : j = w - k - 1
      · subst hj
        rw [List.get?_set_eq_of_lt _ (by omega : w - k - 1 < cols'.length)]
        rw [hcj0]
        simp [List.length_set]
      · rw [List.get?_set_ne _ _ (fun he => hj he.symm)]
        exact hmap' j
    · intro j
      by_cases hj : j = w - k - 1
      · subst hj
        rw [List.get?_set_eq_of_lt _ (by omega : w - k - 1 < cols'.length)]
        have hcond : w - (k + 1) ≤ w - k - 1 ∧ w - k - 1 < w := by omega
        rw [if_pos hcond]
        have hsrc : w - 1 - (w - k - 1) = k := by omega
        rw [hsrc]
        unfold getPix
        rw [hck]
        show some _ = ((cols.get ⟨k, hklt⟩).get? y).bind _
        rw [List.get?_eq_get hyk]
        show some _ = (cols.get? (w - k - 1)).map _
        rw [hcj0]
        rfl
      · rw [List.get?_set_ne _ _ (fun he => hj he.symm), hspec j]
        by_cases hold : w - k ≤ j ∧ j < w
        · rw [if_pos hold, if_pos (by omega : w - (k + 1) ≤ j ∧ j < w)]
        · rw [if_neg hold]
          have hnew : ¬ (w - (k + 1) ≤ j ∧ j < w) := by omega
          rw [if_neg hnew]

theorem getD_of_get? {α : Type} {l : List α} {n : Nat} {a : α} (d : α)
    (h : l.get? n = some a) : l.getD n d = a := by
  rw [List.getD_eq_getElem?_getD, ← List.get?_eq_getElem?, h]
  rfl

theorem lengths_of_map_length {cols cols2 : List (List Pixel)} {hh : Nat}
    (hmap : ∀ j, (cols2.get? j).map List.length = (cols.get? j).map List.length)
    (hcl : ∀ c ∈ cols, c.length = hh) : ∀ c ∈ cols2, c.length = hh := by
  intro c hc
  obtain ⟨n, hn⟩ := List.mem_iff_get?.mp hc
  have hm := hmap n
  rw [hn] at hm
  cases hcn : cols.get? n with
  | none =>
    rw [hcn] at hm
    exact Option.noConfusion hm
  | some c2 =>
    rw [hcn] at hm
    have hl : c.length = c2.length := by simpa using hm
    rw [hl]
    exact hcl c2 (mem_of_get?_eq_some hcn)

theorem foldlM_mirrorGrid {w hh : Nat} :
    ∀ (m : Nat) (cols : List (List Pixel)), w ≤ cols.length → m ≤ hh →
      (∀ c ∈ cols, c.length = hh) →
      ∃ cols', (List.range m).foldlM (fun cs y =>
          (List.range (w / 2)).foldlM (fun cs2 i => do
            let v ← getPix cs2 i y
            setPix cs2 (w - i - 1) y v) cs) cols = some cols' ∧
        cols'.length = cols.length ∧ (∀ c ∈ cols', c.length = hh) ∧
        ∀ j, cols'.get? j =
          if w - w / 2 ≤ j ∧ j < w then
            some ((List.range m).foldl
              (fun cl y => cl.set y ((cols.getD (w - 1 - j) []).getD y Pixel.Padding))
              (cols.getD j []))
          else cols.get? j := by
  intro m
  induction m with
  | zero =>
    intro cols hw _ hcl
    refine ⟨cols, by rw [List.range_zero, List.foldlM_nil]; rfl, rfl, hcl,
      fun j => ?_⟩
    by_cases hj : w - w / 2 ≤ j ∧ j < w
    · rw [if_pos hj, List.range_zero, List.foldl_nil]
      have hjlt : j < cols.length := by omega
      have hcj : cols.get? j = some (cols.get ⟨j, hjlt⟩) := List.get?_eq_get hjlt
      rw [hcj, getD_of_get? [] hcj]
    · rw [if_neg hj]
  | succ m ih =>
    intro cols hw hm hcl
    obtain ⟨colsm, hfold, hlenm, hclm, hspecm⟩ := ih cols hw (by omega) hcl
    have hrowlen : ∀ c ∈ colsm, m < c.length := by
      intro c hc
      rw [hclm c hc]
      omega
    obtain ⟨cols', hrow, hlen', hmap', hspec'⟩ :=
      foldlM_mirrorRow (w := w) (y := m) (w / 2) colsm (by omega)
        (by rw [hlenm]; exact hw) hrowlen
    refine ⟨cols', ?_, by rw [hlen', hlenm], lengths_of_map_length hmap' hclm,
      fun j => ?_⟩
    · rw [List.range_succ, List.foldlM_append, hfold, Option.bind_eq_bind',
        Option.some_bind, List.foldlM_cons, hrow, Option.bind_eq_bind',
        Option.some_bind, List.foldlM_nil]
      rfl
    · rw [hspec' j]
      by_cases hj : w - w / 2 ≤ j ∧ j < w
      · rw [if_pos hj]
        have hw1 : 1 ≤ w := by omega
        have hnt : ¬ (w - w / 2 ≤ w - 1 - j ∧ w - 1 - j < w) := by omega
        have hsrclt : w - 1 - j < cols.length := by omega
        have hsrc : cols.get? (w - 1 - j) = some (cols.get ⟨w - 1 - j, hsrclt⟩) :=
          List.get?_eq_get hsrclt
        have hsrclen : (cols.get ⟨w - 1 - j, hsrclt⟩).length = hh :=
          hcl _ (mem_of_get?_eq_some hsrc)
        have hmy : m < (cols.get ⟨w - 1 - j, hsrclt⟩).length := by omega
        have hgetm : (cols.get ⟨w - 1 - j, hsrclt⟩).get? m =
            some ((cols.get ⟨w - 1 - j, hsrclt⟩).get ⟨m, hmy⟩) := List.get?_eq_get hmy
        have hread : getPix colsm (w - 1 - j) m =
            some ((cols.get ⟨w - 1 - j, hsrclt⟩).get ⟨m, hmy⟩) := by
          unfold getPix
          rw [hspecm _, if_neg hnt, hsrc]
          show (cols.get ⟨w - 1 - j, hsrclt⟩).get? m = _
          exact hgetm
        rw [hread, Option.some_bind, hspecm j, if_pos hj, Option.map_some']
        rw [if_pos hj]
        simp only [List.range_succ, List.foldl_append, List.foldl_cons,
          List.foldl_nil]
        have hval : (cols.getD (w - 1 - j) []).getD m Pixel.Padding =
            (cols.get ⟨w - 1 - j, hsrclt⟩).get ⟨m, hmy⟩ := by
          rw [getD_of_get? [] hsrc]
          exact getD_of_get? Pixel.Padding hgetm
        rw [hval]
      · rw [if_neg hj, hspecm j, if_neg hj, if_neg hj]

theorem mirror_char (img : BmpFile)
    (hcl : ∀ c ∈ img.pixels, c.length = img.header.height)
    (hw : img.header.width ≤ img.pixels.length) :
    ∃ px, img.mirror_horizontal_left = some ⟨img.header, px⟩ ∧
      px.length = img.pixels.length ∧
      (∀ c ∈ px, c.length = img.header.height) ∧
      ∀ j, px.get? j =
        if img.header.width - img.header.width / 2 ≤ j ∧ j < img.header.width then
          img.pixels.get? (img.header.width - 1 - j)
        else img.pixels.get? j := by
  obtain ⟨cols', hfold, hlen', hcl', hspec⟩ :=
    foldlM_mirrorGrid (w := img.header.width)
      img.header.height img.pixels hw (le_refl _) hcl
  refine ⟨cols', ?_, hlen', hcl', fun j => ?_⟩
  · unfold BmpFile.mirror_horizontal_left
    rw [hfold]
    rfl
  · rw [hspec j]
    by_cases hj : img.header.width - img.header.width / 2 ≤ j ∧ j < img.header.width
    · rw [if_pos hj, if_pos hj]
      have hsrclt : img.header.width - 1 - j < img.pixels.length := by omega
      have hjlt : j < img.pixels.length := by omega
      have hsrc : img.pixels.get? (img.header.width - 1 - j) =
          some (img.pixels.get ⟨img.header.width - 1 - j, hsrclt⟩) :=
        List.get?_eq_get hsrclt
      have hcj : img.pixels.get? j = some (img.pixels.get ⟨j, hjlt⟩) :=
        List.get?_eq_get hjlt
      have hsrclen : (img.pixels.get ⟨img.header.width - 1 - j, hsrclt⟩).length =
          img.header.height := hcl _ (mem_of_get?_eq_some hsrc)
      have hcjlen : (img.pixels.get ⟨j, hjlt⟩).length = img.header.height :=
        hcl _ (mem_of_get?_eq_some hcj)
      rw [getD_of_get? [] hsrc, getD_of_get? [] hcj]
      have hcopy := foldl_copyAll Pixel.Padding img.header.height
        (img.pixels.get ⟨j, hjlt⟩)
        (img.pixels.get ⟨img.header.width - 1 - j, hsrclt⟩)
        (le_of_eq hcjlen.symm) (le_of_eq hsrclen.symm)
      rw [hcopy]
      have htake : (img.pixels.get ⟨img.header.width - 1 - j, hsrclt⟩).take
          img.header.height = img.pixels.get ⟨img.header.width - 1 - j, hsrclt⟩ := by
        rw [← hsrclen]
        exact List.take_length _
      have hdropn : (img.pixels.get ⟨j, hjlt⟩).drop img.header.height = [] := by
        rw [← hcjlen]
        exact List.drop_length _
      rw [htake, hdropn, List.append_nil, hsrc]
    · rw [if_neg hj, if_neg hj]

/-- C5 (amended): mirror_horizontal_left COPIES column i onto column
width-1-i for every i below width/2 in every row - the upper half of the
columns receives the mirrored lower half while the lower half and an odd-width
center column stay untouched; consequently the operation is idempotent:
applying it twice gives the same image as applying it once, NOT the original
image. -/
theorem spec_c5 (img : BmpFile)
    (hcl : ∀ c ∈ img.pixels, c.length = img.header.height)
    (hw : img.header.width ≤ img.pixels.length) :
    (img.mirror_horizontal_left).isSome ∧
    (∀ img', img.mirror_horizontal_left = some img' →
      (∀ j, img'.pixels.get? j =
        if img.header.width - img.header.width / 2 ≤ j ∧ j < img.header.width then
          img.pixels.get? (img.header.width - 1 - j)
        else img.pixels.get? j) ∧
      img'.mirror_horizontal_left = some img') := by
  obtain ⟨px, heq, hlen, hcl2, hspec⟩ := mirror_char img hcl hw
  constructor
  · rw [heq]
    rfl
  · intro img' h
    rw [heq] at h
    have himg : img' = ⟨img.header, px⟩ := (Option.some_inj.mp h).symm
    subst himg
    refine ⟨hspec, ?_⟩
    have hcl3 : ∀ c ∈ px, c.length = img.header.height := hcl2
    have hw3 : img.header.width ≤ px.length := by
      rw [hlen]
      exact hw
    obtain ⟨px2, heq2, hlen2, hcl4, hspec2⟩ :=
      mirror_char ⟨img.header, px⟩ hcl3 hw3
    have hpx : px2 = px := by
      apply List.ext_get?
      intro j
      rw [hspec2 j, hspec j]
      by_cases hj : img.header.width - img.header.width / 2 ≤ j ∧
          j < img.header.width
      · rw [if_pos hj, if_pos hj]
        have hnt : ¬ (img.header.width - img.header.width / 2 ≤
            img.header.width - 1 - j ∧ img.header.width - 1 - j <
            img.header.width) := by omega
        rw [hspec _, if_neg hnt]
      · rw [if_neg hj, if_neg hj]
    rw [heq2, hpx]

set_option maxRecDepth 100000 in
/-- C5 counterexample: on a 2x1 image with pixels A, B the operation yields
A, A - a copy, not a swap - and applying it twice yields A, A again, not the
original A, B. -/
theorem spec_c5_cex :
    imgTwo.mirror_horizontal_left =
      some ⟨hdrTwo, [[Pixel.ColorData 1 2 3], [Pixel.ColorData 1 2 3]]⟩ ∧
    (imgTwo.mirror_horizontal_left >>= BmpFile.mirror_horizontal_left) ≠
      some imgTwo :=
  ⟨by decide, by decide⟩

set_option maxRecDepth 100000 in
/-- C5 witness: the mirror succeeds on the concrete 2x1 image. -/
theorem spec_c5_witness : (imgTwo.mirror_horizontal_left).isSome :=
  (spec_c5 imgTwo (by decide) (by decide)).1

theorem foldlM_fillRow {v : Pixel} {y : Nat} :
    ∀ (k : Nat) (cols : List (List Pixel)), k ≤ cols.length →
      (∀ c ∈ cols, y < c.length) →
      ∃ cols', (List.range k).foldlM (fun cs x => setPix cs x y v) cols
          = some cols' ∧
        cols'.length = cols.length ∧
        (∀ j, (cols'.get? j).map List.length = (cols.get? j).map List.length) ∧
        ∀ j, cols'.get? j = if j < k then (cols.get? j).map (fun c => c.set y v)
          else cols.get? j := by
  intro k
  induction k with
  | zero =>
    intro cols _ _
    refine ⟨cols, by rw [List.range_zero, List.foldlM_nil]; rfl, rfl,
      fun j => rfl, fun j => by rw [if_neg (by omega)]⟩
  | succ k ih =>
    intro cols hk hy
    obtain ⟨colsk, hfold, hlenk, hmapk, hspeck⟩ := ih cols (by omega) hy
    have hklt : k < cols.length := by omega
    have hck : cols.get? k = some (cols.get ⟨k, hklt⟩) := List.get?_eq_get hklt
    have hyk : y < (cols.get ⟨k, hklt⟩).length := hy _ (mem_of_get?_eq_some hck)
    have hcolskk : colsk.get? k = some (cols.get ⟨k, hklt⟩) := by
      rw [hspeck k, if_neg (by omega)]
      exact hck
    have hstep : setPix colsk k y v
        = some (colsk.set k ((cols.get ⟨k, hklt⟩).set y v)) :=
      setPix_eq_some hcolskk hyk
    refine ⟨colsk.set k ((cols.get ⟨k, hklt⟩).set y v), ?_, ?_, ?_, ?_⟩
    · rw [List.range_succ, List.foldlM_append, hfold, Option.bind_eq_bind',
        Option.some_bind, List.foldlM_cons, hstep, Option.bind_eq_bind',
        Option.some_bind, List.foldlM_nil]
      rfl
    · rw [List.length_set, hlenk]
    · intro j
      by_cases hj : j = k
      · subst hj
        rw [List.get?_set_eq_of_lt _ (by omega : j < colsk.length), hck]
        simp [List.length_set]
      · rw [List.get?_set_ne _ _ (fun he => hj he.symm)]
        exact hmapk j
    · intro j
      by_cases hj : j = k
      · subst hj
        rw [List.get?_set_eq_of_lt _ (by omega : j < colsk.length),
          if_pos (by omega : j < j + 1), hck]
        rfl
      · rw [List.get?_set_ne _ _ (fun he => hj he.symm), hspeck j]
        by_cases hjk : j < k
        · rw [if_pos hjk, if_pos (by omega : j < k + 1)]
        · rw [if_neg hjk, if_neg (by omega : ¬ j < k + 1)]

theorem foldlM_fillGrid {v : Pixel} {w hh : Nat} :
    ∀ (m : Nat) (cols : List (List Pixel)), w ≤ cols.length → m ≤ hh →
      (∀ c ∈ cols, c.length = hh) →
      ∃ cols', (List.range m).foldlM (fun cs y =>
          (List.range w).foldlM (fun cs2 x => setPix cs2 x y v) cs) cols
          = some cols' ∧
        cols'.length = cols.length ∧ (∀ c ∈ cols', c.length = hh) ∧
        ∀ j, cols'.get? j = if j < w then
            some ((List.range m).foldl (fun cl y => cl.set y v) (cols.getD j []))
          else cols.get? j := by
  intro m
  induction m with
  | zero =>
    intro cols hw _ hcl
    refine ⟨cols, by rw [List.range_zero, List.foldlM_nil]; rfl, rfl, hcl,
      fun j => ?_⟩
    by_cases hj : j < w
    · rw [if_pos hj, List.range_zero, List.foldl_nil]
      have hjlt : j < cols.length := by omega
      have hcj : cols.get? j = some (cols.get ⟨j, hjlt⟩) := List.get?_eq_get hjlt
      rw [hcj, getD_of_get? [] hcj]
    · rw [if_neg hj]
  | succ m ih =>
    intro cols hw hm hcl
    obtain ⟨colsm, hfold, hlenm, hclm, hspecm⟩ := ih cols hw (by omega) hcl
    have hrowlen : ∀ c ∈ colsm, m < c.length := by
      intro c hc
      rw [hclm c hc]
      omega
    obtain ⟨cols', hrow, hlen', hmap', hspec'⟩ :=
      foldlM_fillRow (v := v) (y := m) w colsm (by rw [hlenm]; exact hw) hrowlen
    refine ⟨cols', ?_, by rw [hlen', hlenm], lengths_of_map_length hmap' hclm,
      fun j => ?_⟩
    · rw [List.range_succ, List.foldlM_append, hfold, Option.bind_eq_bind',
        Option.some_bind, List.foldlM_cons, hrow, Option.bind_eq_bind',
        Option.some_bind, List.foldlM_nil]
      rfl
    · rw [hspec' j]
      by_cases hj : j < w
      · rw [if_pos hj, hspecm j, if_pos hj, Option.map_some', if_pos hj]
        simp only [List.range_succ, List.foldl_append, List.foldl_cons,
          List.foldl_nil]
      · rw [if_neg hj, hspecm j, if_neg hj, if_neg hj]

theorem make_blue_char (hdr : Header) (rc : List (List Pixel)) (p : Nat)
    (hrc : rc.length = hdr.width) (hcl : ∀ c ∈ rc, c.length = hdr.height) :
    BmpFile.make_blue
        ⟨hdr, rc ++ List.replicate p (List.replicate hdr.height Pixel.Padding)⟩
      = some ⟨hdr, List.replicate hdr.width
            (List.replicate hdr.height (Pixel.ColorData 255 0 0))
          ++ List.replicate p (List.replicate hdr.height Pixel.Padding)⟩ := by
  have hcl2 : ∀ c ∈ rc ++ List.replicate p (List.replicate hdr.height Pixel.Padding),
      c.length = hdr.height := by
    intro c hc
    rcases List.mem_append.mp hc with h | h
    · exact hcl c h
    · rw [List.eq_of_mem_replicate h, List.length_replicate]
  have hw : hdr.width ≤
      (rc ++ List.replicate p (List.replicate hdr.height Pixel.Padding)).length := by
    rw [List.length_append, hrc]
    omega
  obtain ⟨cols', hfold, hlen', hcl', hspec⟩ :=
    foldlM_fillGrid (v := Pixel.fromColor ⟨255, 0, 0⟩) (w := hdr.width)
      hdr.height _ hw (le_refl _) hcl2
  have hcols : cols' = List.replicate hdr.width
      (List.replicate hdr.height (Pixel.ColorData 255 0 0))
      ++ List.replicate p (List.replicate hdr.height Pixel.Padding) := by
    apply List.ext_get?
    intro j
    rw [hspec j]
    by_cases hj : j < hdr.width
    · rw [if_pos hj]
      have hjlt : j < rc.length := by omega
      have hcj : (rc ++ List.replicate p
          (List.replicate hdr.height Pixel.Padding)).get? j = rc.get? j := by
        rw [List.get?_eq_getElem?, List.get?_eq_getElem?, List.getElem?_append,
          if_pos (by omega : j < rc.length)]
      have hrcj : rc.get? j = some (rc.get ⟨j, hjlt⟩) := List.get?_eq_get hjlt
      have hrcjlen : (rc.get ⟨j, hjlt⟩).length = hdr.height :=
        hcl _ (mem_of_get?_eq_some hrcj)
      rw [getD_of_get? [] (by rw [hcj]; exact hrcj)]
      rw [foldl_setAll _ hdr.height _ (le_of_eq hrcjlen.symm)]
      have hdropn : (rc.get ⟨j, hjlt⟩).drop hdr.height = [] := by
        rw [← hrcjlen]
        exact List.drop_length _
      rw [hdropn, List.append_nil]
      rw [List.get?_eq_getElem?, List.getElem?_append,
        if_pos (by rw [List.length_replicate]; exact hj)]
      rw [List.getElem?_replicate, if_pos hj]
      rfl
    · rw [if_neg hj]
      rw [List.get?_eq_getElem?, List.get?_eq_getElem?]
      rw [List.getElem?_append_right (by omega : rc.length ≤ j), hrc]
      rw [List.getElem?_append_right
        (by rw [List.length_replicate]; omega :
          (List.replicate hdr.width
            (List.replicate hdr.height (Pixel.ColorData 255 0 0))).length ≤ j)]
      rw [List.length_replicate]
  unfold BmpFile.make_blue
  rw [hfold, hcols]
  rfl

theorem mapM_get?_replicate {A : List Pixel} {a : Pixel} {y : Nat}
    (h : A.get? y = some a) : ∀ (n : Nat),
    (List.replicate n A).mapM (fun (c : List Pixel) => c.get? y)
      = some (List.replicate n a) := by
  intro n
  induction n with
  | zero => rfl
  | succ n ih =>
    rw [List.replicate_succ, List.mapM_cons, h, ih]
    rfl

theorem mapM_const_some {β : Type} {f : Nat → Option β} {R : β} :
    ∀ (ys : List Nat), (∀ y ∈ ys, f y = some R) →
      ys.mapM f = some (List.replicate ys.length R) := by
  intro ys
  induction ys with
  | nil => intro _; rfl
  | cons y ys ih =>
    intro hall
    rw [List.mapM_cons, hall y (List.mem_cons_self y ys),
      ih (fun z hz => hall z (List.mem_cons_of_mem _ hz))]
    rfl

theorem flatten_replicate_single {α : Type} (a : α) : ∀ (n : Nat),
    (List.replicate n [a]).flatten = List.replicate n a := by
  intro n
  induction n with
  | zero => rfl
  | succ n ih =>
    rw [List.replicate_succ, List.flatten_cons, ih]
    rfl

theorem rowBytes_filled (w p hh y : Nat) (hy : y < hh) :
    rowBytes (List.replicate w (List.replicate hh (Pixel.ColorData 255 0 0)) ++
      List.replicate p (List.replicate hh Pixel.Padding)) y =
    some ((List.replicate w ([255, 0, 0] : List Nat)).flatten ++
      List.replicate p 0) := by
  unfold rowBytes
  have h1 : (List.replicate hh (Pixel.ColorData 255 0 0)).get? y
      = some (Pixel.ColorData 255 0 0) := by
    rw [List.get?_eq_getElem?, List.getElem?_replicate, if_pos hy]
  have h2 : (List.replicate hh Pixel.Padding).get? y = some Pixel.Padding := by
    rw [List.get?_eq_getElem?, List.getElem?_replicate, if_pos hy]
  rw [List.mapM_append, mapM_get?_replicate h1 w, mapM_get?_replicate h2 p,
    Option.bind_eq_bind', Option.some_bind]
  show Option.map _ (some _) = _
  rw [Option.map_some']
  rw [List.map_append, List.map_replicate, List.map_replicate]
  show some ((List.replicate w [255, 0, 0] ++
    List.replicate p [0]).flatten) = _
  rw [List.flatten_append, flatten_replicate_single]

theorem pixel2d_filled (w p hh : Nat) (hw : 1 ≤ w) :
    Pixel.pixel2d_to_bytes
      (List.replicate w (List.replicate hh (Pixel.ColorData 255 0 0)) ++
        List.replicate p (List.replicate hh Pixel.Padding)) =
    some ((List.replicate hh
      ((List.replicate w ([255, 0, 0] : List Nat)).flatten ++
        List.replicate p 0)).flatten) := by
  unfold Pixel.pixel2d_to_bytes
  have h0 : (List.replicate w (List.replicate hh (Pixel.ColorData 255 0 0)) ++
      List.replicate p (List.replicate hh Pixel.Padding)).get? 0
      = some (List.replicate hh (Pixel.ColorData 255 0 0)) := by
    rw [List.get?_eq_getElem?, List.getElem?_append,
      if_pos (by rw [List.length_replicate]; omega)]
    rw [List.getElem?_replicate, if_pos (by omega)]
  rw [h0, Option.bind_eq_bind', Option.some_bind]
  have hmm : (List.range (List.replicate hh (Pixel.ColorData 255 0 0)).length).mapM
      (rowBytes (List.replicate w (List.replicate hh (Pixel.ColorData 255 0 0)) ++
        List.replicate p (List.replicate hh Pixel.Padding)))
      = some (List.replicate hh
        ((List.replicate w ([255, 0, 0] : List Nat)).flatten ++
          List.replicate p 0)) := by
    rw [List.length_replicate]
    have := mapM_const_some (f := rowBytes
        (List.replicate w (List.replicate hh (Pixel.ColorData 255 0 0)) ++
          List.replicate p (List.replicate hh Pixel.Padding)))
        (R := (List.replicate w ([255, 0, 0] : List Nat)).flatten ++
          List.replicate p 0)
        (List.range hh)
        (fun y hy => rowBytes_filled w p hh y (List.mem_range.mp hy))
    rw [this, List.length_range]
  rw [hmm, Option.map_some']

/-- C8: filling the image with Color(255,0,0) - the source's make_blue - then
encoding yields, for every image whose grid satisfies the shape invariant
(width regular columns of height entries, then one all-Padding column of
height entries per padding byte), a pixel byte stream of height scanlines,
each being width copies of the BGR triple 255,0,0 followed by one zero byte
per padding column; and every addressable pixel of the filled image holds
ColorData 255 0 0. -/
theorem spec_c8 (hdr : Header) (rc : List (List Pixel)) (p : Nat)
    (hrc : rc.length = hdr.width) (hw : 1 ≤ hdr.width)
    (hcl : ∀ c ∈ rc, c.length = hdr.height) :
    (∀ img', BmpFile.make_blue
        ⟨hdr, rc ++ List.replicate p (List.replicate hdr.height Pixel.Padding)⟩
        = some img' →
      ∀ x y, x < hdr.width → y < hdr.height →
        getPix img'.pixels x y = some (Pixel.ColorData 255 0 0)) ∧
    (BmpFile.make_blue
        ⟨hdr, rc ++ List.replicate p (List.replicate hdr.height Pixel.Padding)⟩
      >>= BmpFile.encode)
      = some (Header.toBytes hdr ++
        (List.replicate hdr.height
          ((List.replicate hdr.width ([255, 0, 0] : List Nat)).flatten ++
            List.replicate p 0)).flatten) := by
  constructor
  · intro img' h x y hx hy
    rw [make_blue_char hdr rc p hrc hcl] at h
    have himg : img' = ⟨hdr, List.replicate hdr.width
        (List.replicate hdr.height (Pixel.ColorData 255 0 0))
        ++ List.replicate p (List.replicate hdr.height Pixel.Padding)⟩ :=
      (Option.some_inj.mp h).symm
    subst himg
    unfold getPix
    show ((List.replicate hdr.width
        (List.replicate hdr.height (Pixel.ColorData 255 0 0))
        ++ List.replicate p (List.replicate hdr.height Pixel.Padding)).get? x).bind
      _ = _
    rw [List.get?_eq_getElem?, List.getElem?_append,
      if_pos (by rw [List.length_replicate]; exact hx)]
    rw [List.getElem?_replicate, if_pos hx]
    show (List.replicate hdr.height (Pixel.ColorData 255 0 0)).get? y = _
    rw [List.get?_eq_getElem?, List.getElem?_replicate, if_pos hy]
  · rw [make_blue_char hdr rc p hrc hcl, Option.bind_eq_bind', Option.some_bind]
    unfold BmpFile.encode
    rw [pixel2d_filled _ _ _ hw, Option.map_some']

set_option maxRecDepth 100000 in
/-- C8 witness: the concrete 1x1 image with one padding column. -/
theorem spec_c8_witness :
    (BmpFile.make_blue ⟨hdrOne, [[Pixel.ColorData 1 2 3]] ++
        List.replicate 1 (List.replicate hdrOne.height Pixel.Padding)⟩
      >>= BmpFile.encode)
      = some (Header.toBytes hdrOne ++
        (List.replicate hdrOne.height
          ((List.replicate hdrOne.width ([255, 0, 0] : List Nat)).flatten ++
            List.replicate 1 0)).flatten) :=
  (spec_c8 hdrOne [[Pixel.ColorData 1 2 3]] 1 (by decide) (by decide)
    (by decide)).2
